import Mathlib

/-!
Verification of the eth2sim caches (src/cache.py): the AttestationCache
(deduplication / redundancy pruning of attestations) and the BlockCache
(block acceptance and ancestor-chain reconstruction).

Python dictionaries are modelled as insertion-ordered association lists,
Python sets as duplicate-free lists with membership-guarded insertion,
uint64 slot arithmetic as Nat (the code guards the one subtraction so no
wraparound occurs), and the unbounded recursion of the private chain walk
as a fuel-indexed function (a result of none means the recursion did not
finish within the given fuel).
-/

/-- Association-list lookup: the value stored under key k, if any.
Models a Python dict read m[k] / membership test k in m. -/
def lookupAL {α : Type} : List (Nat × α) → Nat → Option α
  | [], _ => none
  | (k2, v) :: rest, k => if k2 = k then some v else lookupAL rest k

/-- Association-list write m[k] = v: updates the value in place if the key
is present (Python dicts keep the original position), appends otherwise. -/
def insertAL {α : Type} : List (Nat × α) → Nat → α → List (Nat × α)
  | [], k, v => [(k, v)]
  | (k2, v2) :: rest, k, v =>
    if k2 = k then (k, v) :: rest else (k2, v2) :: insertAL rest k v

/-- Membership of a key, as the Python test k in m on a dict. -/
def containsKeyAL {α : Type} (m : List (Nat × α)) (k : Nat) : Bool :=
  (lookupAL m k).isSome

/-- Set insertion for Python sets modelled as duplicate-free lists. -/
def addToSet (s : List Nat) (x : Nat) : List Nat :=
  if s.contains x then s else s ++ [x]

/-- Attestation data: the slot voted on and the committee index
(attestation.data.slot and attestation.data.index in the source). -/
structure AttestationData where
  slot : Nat
  index : Nat
deriving DecidableEq, Repr

/-- An attestation: its data plus the aggregation bitfield marking which
committee member positions participated.  The opaque vote payload of the
source is irrelevant to the cache logic and omitted. -/
structure Attestation where
  data : AttestationData
  aggregation_bits : List Bool
deriving DecidableEq, Repr

/-- Modelled from the spec: the helper indices_inside_committee (imported
from the helpers module, which is not under src/) returns the participant
positions of an aggregation bitfield, i.e. the indices inside the
committee whose bit is set, in increasing order. -/
def indices_inside_committee (bits : List Bool) : List Nat :=
  (List.range bits.length).filter (fun i => bits.getD i false)

/-- Modelled from the spec: the helper popcnt (imported from the helpers
module, which is not under src/) is the bit population count of an
aggregation bitfield. -/
def popcnt (bits : List Bool) : Nat :=
  bits.count true

/-- The attestation cache of src/cache.py: attestations keyed by slot and
committee, and the validator positions already seen inside a block. -/
structure AttestationCache where
  attestation_cache : List (Nat × List (Nat × List Attestation))
  seen_in_block : List (Nat × List (Nat × List Nat))
deriving DecidableEq, Repr

/-- Two-level association lookup, as the Python m[slot][committee] guarded
by the two membership tests. -/
def lookup2 {α : Type} (m : List (Nat × List (Nat × α))) (slot committee : Nat) :
    Option α :=
  match lookupAL m slot with
  | none => none
  | some inner => lookupAL inner committee

/-- The loop body of attestations_with_unseen_validators over the indices
of one attestation: the include flag starts false and is set, and the
index added to the seen set, whenever an index is not yet seen. -/
def scanIndices (idx : List Nat) (seen : List Nat) : Bool × List Nat :=
  idx.foldl
    (fun acc i => if acc.2.contains i then acc else (true, acc.2 ++ [i]))
    (false, seen)

/-- The generator loop of attestations_with_unseen_validators: scan the
cached attestations in insertion order, keeping the running seen set, and
yield an attestation iff its scan set the include flag. -/
def unseenGo : List Attestation → List Nat → List Attestation
  | [], _ => []
  | a :: rest, seen =>
    match scanIndices (indices_inside_committee a.aggregation_bits) seen with
    | (inc, seen2) => if inc then a :: unseenGo rest seen2 else unseenGo rest seen2

/-- AttestationCache.attestations_with_unseen_validators: attestations at
(slot, committee) contributing at least one unseen validator position;
absent slot or committee gives the empty list, seeded seen set from
seen_in_block. -/
def attestations_with_unseen_validators (cache : AttestationCache)
    (slot committee : Nat) : List Attestation :=
  let atts := (lookup2 cache.attestation_cache slot committee).getD []
  let seen := (lookup2 cache.seen_in_block slot committee).getD []
  unseenGo atts seen

/-- Modelled from the spec, for the refinement statement of the generator:
iterate in insertion order with a running seen set; if any participant
position is absent from seen, yield the attestation and add all its
positions to seen, otherwise keep seen unchanged. -/
def unseenPerSpec : List Attestation → List Nat → List Attestation
  | [], _ => []
  | a :: rest, seen =>
    if (indices_inside_committee a.aggregation_bits).any
        (fun i => !seen.contains i) then
      a :: unseenPerSpec rest
        (seen ++ (indices_inside_committee a.aggregation_bits).filter
          (fun i => !seen.contains i))
    else
      unseenPerSpec rest seen

/-- Stable insertion (descending keys) used to model the stable Python
list.sort(key=..., reverse=True): an element moves past exactly the
strictly larger-keyed elements, so equal keys keep their original order. -/
def insertByPopcntDesc (a : Attestation) : List Attestation → List Attestation
  | [] => [a]
  | b :: rest =>
    if popcnt a.aggregation_bits < popcnt b.aggregation_bits then
      b :: insertByPopcntDesc a rest
    else
      a :: b :: rest

/-- Stable sort by descending popcnt of the aggregation bits, modelling
attestations.sort(key=lambda a: popcnt(a.aggregation_bits), reverse=True). -/
def sortByPopcntDesc : List Attestation → List Attestation
  | [] => []
  | a :: rest => insertByPopcntDesc a (sortByPopcntDesc rest)

/-- The indices covered by the kept attestations so far, concatenated as
in the source's keep_indexes list (duplicates included). -/
def keepIndexesOf (keep : List Attestation) : List Nat :=
  keep.foldl (fun acc k => acc ++ indices_inside_committee k.aggregation_bits) []

/-- The greedy keep loop of clean_redundant_attestations.  The decision
mirrors the source line any(index for index in current_attestation_indexes
if index not in keep_indexes): the generator yields the index values
themselves, and any tests their truthiness, so an index equal to 0 never
makes the test succeed. -/
def cleanRedundantGo : List Attestation → List Attestation → List Attestation
  | [], keep => keep
  | a :: rest, keep =>
    let current := indices_inside_committee a.aggregation_bits
    let keep_indexes := keepIndexesOf keep
    let keep_current := current.any (fun i => !keep_indexes.contains i && !(i == 0))
    if keep_current then cleanRedundantGo rest (keep ++ [a])
    else cleanRedundantGo rest keep

/-- Redundancy pruning for one (slot, committee) attestation list: sort by
descending popcnt, then greedily keep. -/
def clean_redundant_list (atts : List Attestation) : List Attestation :=
  cleanRedundantGo (sortByPopcntDesc atts) []

/-- AttestationCache.clean_redundant_attestations: prune every
(slot, committee) entry in place, keys and order untouched. -/
def clean_redundant_attestations (cache : AttestationCache) : AttestationCache :=
  { cache with
    attestation_cache :=
      cache.attestation_cache.map
        (fun p => (p.1, p.2.map (fun q => (q.1, clean_redundant_list q.2)))) }

/-- AttestationCache.clean_old_slots: when slot > keep_slots, delete every
entry of both mappings whose slot is below slot - keep_slots; otherwise do
nothing (the guard avoids uint64 wraparound in the source). -/
def clean_old_slots (cache : AttestationCache) (slot keep_slots : Nat) :
    AttestationCache :=
  if keep_slots < slot then
    let lower_bound := slot - keep_slots
    { attestation_cache :=
        cache.attestation_cache.filter (fun p => !(p.1 < lower_bound))
      seen_in_block :=
        cache.seen_in_block.filter (fun p => !(p.1 < lower_bound)) }
  else
    cache

/-- AttestationCache.cleanup: drop old slots, then prune redundancy. -/
def cleanup (cache : AttestationCache) (slot keep_slots : Nat) :
    AttestationCache :=
  clean_redundant_attestations (clean_old_slots cache slot keep_slots)

/-- A beacon block: slot, parent root and an abstract body distinguishing
block contents. -/
structure BeaconBlock where
  slot : Nat
  parent_root : Nat
  body : Nat
deriving DecidableEq, Repr

/-- A signed beacon block; the signature is never read by the cache and is
omitted. -/
structure SignedBeaconBlock where
  message : BeaconBlock
deriving DecidableEq, Repr

/-- Modelled from the spec: spec.hash_tree_root is the content hash of a
block (external to src/); it is modelled as an injective pairing of the
block fields. -/
def hash_tree_root (b : BeaconBlock) : Nat :=
  Nat.pair b.slot (Nat.pair b.parent_root b.body)

/-- The external store consumed by chain reconstruction: only membership
of a root among its known blocks is ever used. -/
structure Store where
  blocks : List (Nat × SignedBeaconBlock)
deriving DecidableEq, Repr

/-- The block cache of src/cache.py: all known blocks by root, the
accepted root (if any) per slot, and the outstanding roots. -/
structure BlockCache where
  blocks : List (Nat × SignedBeaconBlock)
  accepted : List (Option Nat)
  outstanding : List Nat
deriving DecidableEq, Repr

/-- BlockCache construction from a genesis block: its root is stored as a
pseudo-signed block and pre-accepted, outstanding starts empty. -/
def initBlockCache (genesis : BeaconBlock) : BlockCache :=
  let genesis_root := hash_tree_root genesis
  { blocks := [(genesis_root, { message := genesis })]
    accepted := [some genesis_root]
    outstanding := [] }

/-- The while loop of add_block padding accepted with None placeholders
until it has an entry for the block's slot. -/
def padAccepted (accepted : List (Option Nat)) (slot : Nat) : List (Option Nat) :=
  accepted ++ List.replicate (slot + 1 - accepted.length) none

/-- The conflict message raised by add_block. -/
def conflictMsg : String := "Second block at same height!"

/-- BlockCache.add_block: store the block under its (given or computed)
root first; return early if the root is already accepted; pad accepted up
to the block's slot; raise the conflict error if a different root is
accepted at that slot; otherwise record the root as outstanding.  The
returned state is the state at the time of return or raise (the source
mutates self in place), and the second component is the raised error. -/
def add_block (c : BlockCache) (block : SignedBeaconBlock)
    (rootArg : Option Nat) : BlockCache × Option String :=
  let root := rootArg.getD (hash_tree_root block.message)
  let c1 := { c with blocks := insertAL c.blocks root block }
  if c1.accepted.contains (some root) then
    (c1, none)
  else
    let acc := padAccepted c1.accepted block.message.slot
    let c2 := { c1 with accepted := acc }
    match acc.getD block.message.slot none with
    | some r2 =>
      if r2 = root then
        ({ c2 with outstanding := addToSet c2.outstanding root }, none)
      else
        (c2, some conflictMsg)
    | none =>
      ({ c2 with outstanding := addToSet c2.outstanding root }, none)

/-- The message of the Python IndexError raised by list assignment out of
range in accept_block. -/
def indexErrorMsg : String := "list assignment index out of range"

/-- BlockCache.accept_block over its variadic block arguments: for each
block in order, write its computed root into accepted at its slot (an
IndexError aborts the loop, keeping the mutations already made) and
discard the root from outstanding if present. -/
def accept_block (c : BlockCache) : List SignedBeaconBlock →
    BlockCache × Option String
  | [] => (c, none)
  | b :: rest =>
    let root := hash_tree_root b.message
    if b.message.slot < c.accepted.length then
      accept_block
        { c with
          accepted := c.accepted.set b.message.slot (some root)
          outstanding := c.outstanding.erase root }
        rest
    else
      (c, some indexErrorMsg)

/-- The message of the KeyError raised by the private chain walk on a
parent root absent from blocks (the source interpolates the roots into the
message; the model keeps a fixed text). -/
def parentUnknownMsg : String := "Parent block not known"

/-- BlockCache.__chain_for_block, fuel-indexed: stop with the empty chain
on a store-known root or at slot 0; raise a KeyError when the parent root
is not among the known blocks; otherwise recurse on the parent and append
the current block.  A result of none means the recursion did not finish
within the fuel (the source recursion is unbounded). -/
def chainWalk : Nat → BlockCache → SignedBeaconBlock → Nat → Store →
    Option (Except String (List SignedBeaconBlock))
  | 0, _, _, _, _ => none
  | fuel + 1, c, block, root, store =>
    if containsKeyAL store.blocks root then
      some (Except.ok [])
    else if block.message.slot = 0 then
      some (Except.ok [])
    else
      match lookupAL c.blocks block.message.parent_root with
      | none => some (Except.error parentUnknownMsg)
      | some parent =>
        match chainWalk fuel c parent block.message.parent_root store with
        | none => none
        | some (Except.error e) => some (Except.error e)
        | some (Except.ok chain) => some (Except.ok (chain ++ [block]))

/-- BlockCache.chain_for_block: walk from the block's computed root. -/
def chain_for_block (fuel : Nat) (c : BlockCache) (block : SignedBeaconBlock)
    (store : Store) : Option (Except String (List SignedBeaconBlock)) :=
  chainWalk fuel c block (hash_tree_root block.message) store

/-- The try/except of longest_outstanding_chain: a successful walk gives
its chain, a KeyError from the walk is downgraded to the empty chain. -/
def exceptChain (res : Except String (List SignedBeaconBlock)) :
    List SignedBeaconBlock :=
  match res with
  | Except.ok l => l
  | Except.error _ => []

/-- The loop of longest_outstanding_chain: look each outstanding root up
in blocks (a failed lookup is a KeyError raised outside the try block),
compute its chain, downgrade a KeyError from the walk to the empty chain,
and keep the later chain on ties (the source compares with >=). -/
def longestGo (fuel : Nat) (c : BlockCache) (store : Store) :
    List Nat → List SignedBeaconBlock → Option (List SignedBeaconBlock)
  | [], chain => some chain
  | r :: rest, chain =>
    match lookupAL c.blocks r with
    | none => none
    | some b =>
      match chain_for_block fuel c b store with
      | none => none
      | some res =>
        longestGo fuel c store rest
          (if chain.length ≤ (exceptChain res).length then exceptChain res
           else chain)

/-- BlockCache.longest_outstanding_chain. -/
def longest_outstanding_chain (fuel : Nat) (c : BlockCache) (store : Store) :
    Option (List SignedBeaconBlock) :=
  longestGo fuel c store c.outstanding []

/-- BlockCache states reachable from construction with a genesis block by
any sequence of add_block and accept_block calls (the state after a raise
is the partially mutated one the source leaves behind). -/
inductive Reachable : BlockCache → Prop
  | init (g : BeaconBlock) : Reachable (initBlockCache g)
  | add (c : BlockCache) (b : SignedBeaconBlock) (rootArg : Option Nat) :
      Reachable c → Reachable (add_block c b rootArg).1
  | accept (c : BlockCache) (bs : List SignedBeaconBlock) :
      Reachable c → Reachable (accept_block c bs).1

/-- BlockCache states reachable when, in addition, every accept_block call
honours the trusted fork-choice contract: each accepted block's computed
root is already a key of blocks. -/
inductive GoodReachable : BlockCache → Prop
  | init (g : BeaconBlock) : GoodReachable (initBlockCache g)
  | add (c : BlockCache) (b : SignedBeaconBlock) (rootArg : Option Nat) :
      GoodReachable c → GoodReachable (add_block c b rootArg).1
  | accept (c : BlockCache) (bs : List SignedBeaconBlock) :
      GoodReachable c →
      (∀ b ∈ bs, (lookupAL c.blocks (hash_tree_root b.message)).isSome = true) →
      GoodReachable (accept_block c bs).1

/-- The accepted-roots invariant of the spec: every non-empty root stored
in the accepted sequence is a key of the blocks mapping. -/
def acceptedInBlocks (c : BlockCache) : Prop :=
  ∀ r : Nat, (some r) ∈ c.accepted → (lookupAL c.blocks r).isSome = true

/-- Termination of the private recursive chain walk: some fuel suffices. -/
def walkTerminates (c : BlockCache) (b : SignedBeaconBlock) (root : Nat)
    (store : Store) : Prop :=
  ∃ n, chainWalk n c b root store ≠ none

/-- Every stored block above slot 0 whose parent is also stored has a
parent of strictly smaller slot (true of hash-keyed chains). -/
def parentSlotsDecrease (c : BlockCache) : Bool :=
  c.blocks.all (fun rb =>
    rb.2.message.slot == 0 ||
    match lookupAL c.blocks rb.2.message.parent_root with
    | none => true
    | some p => decide (p.message.slot < rb.2.message.slot))

/-- Every stored block's slot is below the given fuel bound. -/
def slotsBelow (c : BlockCache) (fuel : Nat) : Bool :=
  c.blocks.all (fun rb => decide (rb.2.message.slot < fuel))

/-- Default block used only as the irrelevant getD fallback in theorem
statements about chain elements. -/
def dummySB : SignedBeaconBlock := ⟨⟨0, 0, 0⟩⟩

/-- Genesis block of the concrete scenarios. -/
def genesisB : BeaconBlock := ⟨0, 0, 0⟩

/-- A block at slot 5 with the genesis block as parent. -/
def blockA5 : SignedBeaconBlock := ⟨⟨5, 0, 1⟩⟩

/-- A different block at slot 5, also with the genesis block as parent. -/
def blockB5 : SignedBeaconBlock := ⟨⟨5, 0, 2⟩⟩

/-- State in which blockA5 has been added and then accepted at slot 5. -/
def conflictCache : BlockCache :=
  (accept_block (add_block (initBlockCache genesisB) blockA5 none).1 [blockA5]).1

/-- An attestation whose only participant position is position 0. -/
def attBit0 : Attestation := ⟨⟨5, 0⟩, [true]⟩

/-- First block of the three-block chain scenario, child of genesis. -/
def blockA1 : SignedBeaconBlock := ⟨⟨1, 0, 1⟩⟩

/-- Second block of the chain scenario, child of blockA1. -/
def blockB2 : SignedBeaconBlock := ⟨⟨2, hash_tree_root blockA1.message, 2⟩⟩

/-- Third block of the chain scenario, child of blockB2. -/
def blockC3 : SignedBeaconBlock := ⟨⟨3, hash_tree_root blockB2.message, 3⟩⟩

/-- The cache holding the chain genesis, blockA1, blockB2, blockC3. -/
def chainCache : BlockCache :=
  (add_block (add_block (add_block (initBlockCache genesisB) blockA1 none).1
    blockB2 none).1 blockC3 none).1

/-- An external store knowing only the genesis block. -/
def genesisStore : Store := ⟨[(hash_tree_root genesisB, ⟨genesisB⟩)]⟩

/-- An external store knowing no blocks. -/
def emptyStore : Store := ⟨[]⟩

/-- A block whose parent root 999 was never added to any cache. -/
def orphanBlock : SignedBeaconBlock := ⟨⟨1, 999, 1⟩⟩

/-- Cache holding genesis and the orphan block (its parent missing). -/
def orphanCache : BlockCache :=
  (add_block (initBlockCache genesisB) orphanBlock none).1

/-- A block added under the explicit foreign root 42 and then accepted, so
that its computed root enters accepted while only 42 is a key of blocks. -/
def foreignBlock : SignedBeaconBlock := ⟨⟨1, 0, 7⟩⟩

/-- The state after add_block(foreignBlock, root=42) and
accept_block(foreignBlock). -/
def foreignState : BlockCache :=
  (accept_block (add_block (initBlockCache genesisB) foreignBlock (some 42)).1
    [foreignBlock]).1

/-- First half of a parent cycle: stored under root 1000, parent 2000. -/
def cycBlockA : SignedBeaconBlock := ⟨⟨1, 2000, 1⟩⟩

/-- Second half of a parent cycle: stored under root 2000, parent 1000. -/
def cycBlockB : SignedBeaconBlock := ⟨⟨2, 1000, 2⟩⟩

/-- A reachable cache whose stored parent references form a cycle,
obtained through add_block with explicit roots. -/
def cycCache : BlockCache :=
  (add_block (add_block (initBlockCache genesisB) cycBlockA (some 1000)).1
    cycBlockB (some 2000)).1

/-- Lookup after an association-list write: the written key reads the new
value, every other key is unaffected. -/
theorem lookupAL_insertAL {α : Type} (m : List (Nat × α)) (k j : Nat) (v : α) :
    lookupAL (insertAL m k v) j = if k = j then some v else lookupAL m j := by
  induction m with
  | nil =>
    by_cases h : k = j <;> simp [insertAL, lookupAL, h]
  | cons hd tl ih =>
    obtain ⟨k2, v2⟩ := hd
    by_cases h1 : k2 = k
    · subst h1
      by_cases h : k2 = j <;> simp [insertAL, lookupAL, h]
    · by_cases h2 : k2 = j
      · subst h2
        simp [insertAL, h1, lookupAL]
        rw [if_neg (fun hh => h1 hh.symm)]
      · simp [insertAL, h1, lookupAL, h2, ih]

/-- Padding reaches past the block's slot. -/
theorem padAccepted_length (l : List (Option Nat)) (s : Nat) :
    s < (padAccepted l s).length := by
  simp [padAccepted]
  omega

/-- Padding adds only empty placeholders: any real root in the padded
sequence was already there. -/
theorem mem_padAccepted {l : List (Option Nat)} {s : Nat} {x : Nat}
    (h : some x ∈ padAccepted l s) : some x ∈ l := by
  rcases List.mem_append.mp h with h1 | h2
  · exact h1
  · exact absurd (List.eq_of_mem_replicate h2) (by simp)

/-- Case analysis of add_block: either no error is raised, or the call
returns the conflict error with the block already stored and the accepted
sequence already padded, outstanding untouched. -/
theorem add_block_cases (c : BlockCache) (b : SignedBeaconBlock)
    (rootArg : Option Nat) :
    (add_block c b rootArg).2 = none ∨
    add_block c b rootArg =
      ({ blocks := insertAL c.blocks (rootArg.getD (hash_tree_root b.message)) b,
         accepted := padAccepted c.accepted b.message.slot,
         outstanding := c.outstanding }, some conflictMsg) := by
  unfold add_block
  dsimp only
  split
  · left; rfl
  · split
    · split
      · left; rfl
      · right; rfl
    · left; rfl

/-- C1 (counterexample): with genesis at slot 0, adding blockA5 at slot 5
and then the different blockB5 at slot 5 (parent root = genesis root,
root different from blockA5's) raises no error at all: both calls return
without the conflict error, because add_block never records a root into
the accepted sequence. -/
theorem C1_counterexample :
    (add_block (add_block (initBlockCache genesisB) blockA5 none).1 blockB5 none).2
        = none
      ∧ (add_block (initBlockCache genesisB) blockA5 none).2 = none
      ∧ hash_tree_root blockA5.message ≠ hash_tree_root blockB5.message
      ∧ blockA5.message.slot = 5
      ∧ blockB5.message.slot = 5
      ∧ blockB5.message.parent_root = hash_tree_root genesisB := by
  refine ⟨rfl, rfl, by decide, rfl, rfl, by decide⟩

/-- C1 (amended): the conflict error fires only against an accepted root:
after blockA5 has been added and then accepted at slot 5, adding the
different blockB5 at slot 5 raises the conflict error. -/
theorem C1_conflict_after_accept :
    (add_block conflictCache blockB5 none).2 = some conflictMsg := rfl

/-- C2 (code evaluated at the failing input): a single cached attestation
whose only participant position is position 0 is dropped entirely by
clean_redundant_attestations: the attestation list at its (slot,
committee) becomes empty, so the union of participant positions over the
kept attestations loses position 0.  The cause is the source's
any(index for index in ... if index not in keep_indexes), which tests the
truthiness of the index values, and index 0 is falsy. -/
theorem C2_position_zero_lost :
    clean_redundant_list [attBit0] = []
      ∧ indices_inside_committee attBit0.aggregation_bits = [0]
      ∧ clean_redundant_attestations ⟨[(5, [(0, [attBit0])])], []⟩
          = ⟨[(5, [(0, [])])], []⟩ := by
  refine ⟨rfl, rfl, rfl⟩

/-- C10: add_block is not atomic on error: whenever it raises, the raised
error is the conflict error, the block is nevertheless already stored in
blocks under the resolved root, the accepted sequence is already padded
past the block's slot, and outstanding is unchanged. -/
theorem C10_add_block_not_atomic (c : BlockCache) (b : SignedBeaconBlock)
    (rootArg : Option Nat) (e : String)
    (h : (add_block c b rootArg).2 = some e) :
    lookupAL (add_block c b rootArg).1.blocks
        (rootArg.getD (hash_tree_root b.message)) = some b
      ∧ b.message.slot < (add_block c b rootArg).1.accepted.length
      ∧ (add_block c b rootArg).1.outstanding = c.outstanding
      ∧ e = conflictMsg := by
  rcases add_block_cases c b rootArg with h1 | h1
  · rw [h1] at h
    exact absurd h (by simp)
  · rw [h1] at h ⊢
    refine ⟨?_, ?_, rfl, ?_⟩
    · simp [lookupAL_insertAL]
    · exact padAccepted_length c.accepted b.message.slot
    · exact (Option.some_injective _ h).symm

/-- Witness for C10: the concrete conflict (blockB5 added after blockA5
was accepted at slot 5) exhibits the partially mutated state. -/
theorem C10_witness :
    lookupAL (add_block conflictCache blockB5 none).1.blocks
        ((none : Option Nat).getD (hash_tree_root blockB5.message)) = some blockB5
      ∧ blockB5.message.slot < (add_block conflictCache blockB5 none).1.accepted.length
      ∧ (add_block conflictCache blockB5 none).1.outstanding = conflictCache.outstanding
      ∧ conflictMsg = conflictMsg :=
  C10_add_block_not_atomic conflictCache blockB5 none conflictMsg rfl

/-- Lookup in a slot-filtered association list: slots below the bound are
gone, the rest read unchanged. -/
theorem lookupAL_filter_lb {α : Type} (m : List (Nat × α)) (lb k : Nat) :
    lookupAL (m.filter (fun p => !(p.1 < lb))) k =
      if k < lb then none else lookupAL m k := by
  induction m with
  | nil => by_cases h : k < lb <;> simp [lookupAL, h]
  | cons hd tl ih =>
    obtain ⟨k2, v2⟩ := hd
    by_cases h2 : k2 < lb
    · rw [show List.filter (fun p => !(p.1 < lb)) ((k2, v2) :: tl)
            = List.filter (fun p => !(p.1 < lb)) tl from by
          simp [List.filter_cons, h2]]
      rw [ih]
      by_cases hk : k < lb
      · simp [hk]
      · simp only [if_neg hk, lookupAL]
        rw [if_neg (by omega : ¬ k2 = k)]
    · rw [show List.filter (fun p => !(p.1 < lb)) ((k2, v2) :: tl)
            = (k2, v2) :: List.filter (fun p => !(p.1 < lb)) tl from by
          simp [List.filter_cons, h2]]
      simp only [lookupAL, ih]
      by_cases he : k2 = k
      · subst he
        simp [h2]
      · simp [he]

/-- Lookup through a value-mapping of an association list. -/
theorem lookupAL_mapval {α β : Type} (m : List (Nat × α)) (f : α → β) (k : Nat) :
    lookupAL (m.map (fun p => (p.1, f p.2))) k = (lookupAL m k).map f := by
  induction m with
  | nil => simp [lookupAL]
  | cons hd tl ih =>
    by_cases h : hd.1 = k <;> simp [lookupAL, h, ih]

/-- C7: cleanup(slot, keep_slots) removes from both mappings exactly the
entries of slots strictly below slot - keep_slots, and removes none when
slot <= keep_slots: seen_in_block entries are removed or left exactly as
they were, and an attestation_cache slot entry survives exactly when it
existed and is not below the bound.  In particular cleanup(10, 5) removes
slots below 5 and retains the rest, and cleanup(3, 5) retains every slot. -/
theorem C7_cleanup_boundary (cache : AttestationCache) (slot keep_slots s : Nat) :
    (lookupAL (cleanup cache slot keep_slots).seen_in_block s =
        if keep_slots < slot ∧ s < slot - keep_slots then none
        else lookupAL cache.seen_in_block s)
      ∧ ((lookupAL (cleanup cache slot keep_slots).attestation_cache s).isSome =
        ((lookupAL cache.attestation_cache s).isSome &&
          !(decide (keep_slots < slot) && decide (s < slot - keep_slots)))) := by
  unfold cleanup clean_redundant_attestations clean_old_slots
  by_cases h : keep_slots < slot
  · simp only [if_pos h]
    constructor
    · simp only [lookupAL_filter_lb]
      by_cases hs : s < slot - keep_slots
      · simp [hs, h]
      · simp [hs, h]
    · simp only [lookupAL_mapval, lookupAL_filter_lb]
      by_cases hs : s < slot - keep_slots
      · simp [hs, h]
      · simp [hs, h]
  · simp only [if_neg h]
    constructor
    · simp [h]
    · simp [lookupAL_mapval, h]

/-- C5: the chain walk fails with the lookup (missing-ancestor) error
whenever it reaches a block not known to the external store, not at slot
0, whose parent root is not a key of blocks; the error propagates
unchanged through outer recursion levels; in particular, calling
chain_for_block on the orphan block (its parent root 999 never added)
fails with the lookup error. -/
theorem C5_missing_ancestor :
    (chain_for_block 10 orphanCache orphanBlock emptyStore
        = some (Except.error parentUnknownMsg))
      ∧ (∀ (c : BlockCache) (b : SignedBeaconBlock) (root : Nat) (store : Store)
          (fuel : Nat),
          containsKeyAL store.blocks root = false →
          b.message.slot ≠ 0 →
          lookupAL c.blocks b.message.parent_root = none →
          chainWalk (fuel + 1) c b root store = some (Except.error parentUnknownMsg))
      ∧ (∀ (c : BlockCache) (b p : SignedBeaconBlock) (root : Nat) (store : Store)
          (fuel : Nat) (e : String),
          containsKeyAL store.blocks root = false →
          b.message.slot ≠ 0 →
          lookupAL c.blocks b.message.parent_root = some p →
          chainWalk fuel c p b.message.parent_root store = some (Except.error e) →
          chainWalk (fuel + 1) c b root store = some (Except.error e)) := by
  refine ⟨rfl, ?_, ?_⟩
  · intro c b root store fuel h1 h2 h3
    simp [chainWalk, h1, h2, h3]
  · intro c b p root store fuel e h1 h2 h3 h4
    simp [chainWalk, h1, h2, h3, h4]

/-- Witness for C5: the one-step clause applied to the orphan block in
its cache, with fuel 0 below the recursion. -/
theorem C5_witness :
    chainWalk 1 orphanCache orphanBlock 77 emptyStore
      = some (Except.error parentUnknownMsg) :=
  C5_missing_ancestor.2.1 orphanCache orphanBlock 77 emptyStore 0 rfl
    (by decide) rfl

/-- The participant positions of a bitfield are pairwise distinct. -/
theorem indices_nodup (bits : List Bool) :
    (indices_inside_committee bits).Nodup :=
  (List.nodup_range _).filter _

/-- The inner index scan of the generator, characterised: starting from
any flag, the flag ends up set iff some index is outside the initial seen
set, and the seen set ends extended by exactly the new indices, in
order. -/
theorem scan_fold_eq (idx : List Nat) (h : idx.Nodup) :
    ∀ (seen : List Nat) (b0 : Bool),
      idx.foldl (fun acc i => if acc.2.contains i then acc else (true, acc.2 ++ [i]))
          (b0, seen)
        = (b0 || idx.any (fun i => !seen.contains i),
           seen ++ idx.filter (fun i => !seen.contains i)) := by
  induction idx with
  | nil => intro seen b0; simp
  | cons i idx ih =>
    intro seen b0
    have hnotin : i ∉ idx := (List.nodup_cons.mp h).1
    have hnd : idx.Nodup := (List.nodup_cons.mp h).2
    by_cases hc : seen.contains i = true
    · simp only [List.foldl_cons]
      rw [if_pos hc, ih hnd seen b0, List.any_cons, List.filter_cons]
      rw [hc]
      simp
    · have hc2 : seen.contains i = false := Bool.eq_false_iff.mpr hc
      simp only [List.foldl_cons]
      rw [if_neg hc, ih hnd (seen ++ [i]) true, List.any_cons, List.filter_cons]
      have hfilter : idx.filter (fun j => !(seen ++ [i]).contains j)
          = idx.filter (fun j => !seen.contains j) := by
        apply List.filter_congr
        intro j hj
        have hji : j ≠ i := fun he => hnotin (he ▸ hj)
        simp only [List.elem_eq_mem, List.mem_append, List.mem_singleton]
        simp [hji]
      rw [hfilter, hc2]
      simp [List.append_assoc]

/-- Unfolding equation of the spec-described recursion when some position
is new. -/
theorem unseenPerSpec_cons_pos (a : Attestation) (rest : List Attestation)
    (seen : List Nat)
    (h : (indices_inside_committee a.aggregation_bits).any
      (fun i => !seen.contains i) = true) :
    unseenPerSpec (a :: rest) seen
      = a :: unseenPerSpec rest
          (seen ++ (indices_inside_committee a.aggregation_bits).filter
            (fun i => !seen.contains i)) := by
  simp only [unseenPerSpec]
  rw [if_pos h]

/-- Unfolding equation of the spec-described recursion when every position
is already seen. -/
theorem unseenPerSpec_cons_neg (a : Attestation) (rest : List Attestation)
    (seen : List Nat)
    (h : ¬ (indices_inside_committee a.aggregation_bits).any
      (fun i => !seen.contains i) = true) :
    unseenPerSpec (a :: rest) seen = unseenPerSpec rest seen := by
  simp only [unseenPerSpec]
  rw [if_neg h]

/-- The generator loop agrees with the spec-described recursion. -/
theorem unseenGo_eq_perSpec (atts : List Attestation) :
    ∀ seen : List Nat, unseenGo atts seen = unseenPerSpec atts seen := by
  induction atts with
  | nil => intro seen; rfl
  | cons a rest ih =>
    intro seen
    simp only [unseenGo]
    unfold scanIndices
    rw [scan_fold_eq _ (indices_nodup a.aggregation_bits) seen false]
    rw [Bool.false_or]
    by_cases hany : (indices_inside_committee a.aggregation_bits).any
        (fun i => !seen.contains i) = true
    · rw [if_pos hany, ih, unseenPerSpec_cons_pos a rest seen hany]
    · have hfil : (indices_inside_committee a.aggregation_bits).filter
          (fun i => !seen.contains i) = [] := by
        rw [List.filter_eq_nil_iff]
        intro j hj hcon
        exact hany (List.any_eq_true.mpr ⟨j, hj, hcon⟩)
      rw [if_neg hany, hfil, List.append_nil, ih,
        unseenPerSpec_cons_neg a rest seen hany]

/-- C3: attestations_with_unseen_validators yields exactly the cached
attestations that, scanned in insertion order with a running seen set
seeded from seen_in_block (empty if absent), contain at least one
participant position not in seen, the seen set absorbing all positions of
a yielded attestation; an absent slot or committee yields nothing and
does not fail. -/
theorem C3_unseen_validators_spec :
    (∀ (atts : List Attestation) (seen : List Nat),
      unseenGo atts seen = unseenPerSpec atts seen)
      ∧ (∀ (cache : AttestationCache) (slot committee : Nat),
          attestations_with_unseen_validators cache slot committee
            = unseenPerSpec
                ((lookup2 cache.attestation_cache slot committee).getD [])
                ((lookup2 cache.seen_in_block slot committee).getD []))
      ∧ (∀ (cache : AttestationCache) (slot committee : Nat),
          lookup2 cache.attestation_cache slot committee = none →
          attestations_with_unseen_validators cache slot committee = []) := by
  refine ⟨fun atts seen => unseenGo_eq_perSpec atts seen, ?_, ?_⟩
  · intro cache slot committee
    exact unseenGo_eq_perSpec
      ((lookup2 cache.attestation_cache slot committee).getD [])
      ((lookup2 cache.seen_in_block slot committee).getD [])
  · intro cache slot committee h
    unfold attestations_with_unseen_validators
    rw [h]
    rfl

/-- Witness for C3: the empty cache yields nothing at any (slot,
committee). -/
theorem C3_witness :
    attestations_with_unseen_validators ⟨[], []⟩ 1 2 = [] :=
  C3_unseen_validators_spec.2.2 ⟨[], []⟩ 1 2 rfl

/-- Blocks are untouched by accept_block. -/
theorem accept_block_blocks (bs : List SignedBeaconBlock) :
    ∀ c : BlockCache, (accept_block c bs).1.blocks = c.blocks := by
  induction bs with
  | nil => intro c; rfl
  | cons b rest ih =>
    intro c
    unfold accept_block
    by_cases h : b.message.slot < c.accepted.length
    · rw [if_pos h]
      exact ih _
    · rw [if_neg h]

/-- Components of the state add_block returns, in every branch: blocks
always hold the new block under its resolved root, and accepted gains at
most empty placeholders. -/
theorem add_block_components (c : BlockCache) (b : SignedBeaconBlock)
    (rootArg : Option Nat) :
    (add_block c b rootArg).1.blocks
        = insertAL c.blocks (rootArg.getD (hash_tree_root b.message)) b
      ∧ ∀ r : Nat, (some r) ∈ (add_block c b rootArg).1.accepted →
          (some r) ∈ c.accepted := by
  unfold add_block
  dsimp only
  split
  · exact ⟨rfl, fun r h => h⟩
  · split
    · split
      · exact ⟨rfl, fun r h => mem_padAccepted h⟩
      · exact ⟨rfl, fun r h => mem_padAccepted h⟩
    · exact ⟨rfl, fun r h => mem_padAccepted h⟩

/-- C8 (counterexample): the invariant fails on a reachable state.  Adding
foreignBlock under the explicit root 42 and then accepting it stores the
computed root of foreignBlock into accepted while blocks only has keys 0
(genesis) and 42, so an accepted root is missing from blocks. -/
theorem C8_counterexample :
    Reachable foreignState
      ∧ (some (hash_tree_root foreignBlock.message)) ∈ foreignState.accepted
      ∧ lookupAL foreignState.blocks (hash_tree_root foreignBlock.message)
          = none := by
  refine ⟨?_, by decide, by decide⟩
  exact Reachable.accept _ _ (Reachable.add _ _ _ (Reachable.init genesisB))

/-- The invariant is preserved by one guarded accept_block call. -/
theorem accept_preserves_invariant (bs : List SignedBeaconBlock) :
    ∀ c : BlockCache, acceptedInBlocks c →
      (∀ b ∈ bs, (lookupAL c.blocks (hash_tree_root b.message)).isSome = true) →
      acceptedInBlocks (accept_block c bs).1 := by
  induction bs with
  | nil => intro c hinv _; exact hinv
  | cons b rest ih =>
    intro c hinv hg
    unfold accept_block
    by_cases h : b.message.slot < c.accepted.length
    · rw [if_pos h]
      apply ih
      · intro r hr
        rcases List.mem_or_eq_of_mem_set hr with hmem | heq
        · exact hinv r hmem
        · have hr2 : r = hash_tree_root b.message := Option.some_injective _ heq
          subst hr2
          exact hg b (by simp)
      · intro b2 hb2
        exact hg b2 (by simp [hb2])
    · rw [if_neg h]
      exact hinv

/-- C8 (amended): in every state reachable when each accept_block call
passes only blocks whose computed root is already a key of blocks (the
trusted fork-choice contract), every non-empty root in accepted is a key
of blocks.  add_block needs no side condition: it never writes a root
into accepted. -/
theorem C8_accepted_in_blocks (c : BlockCache) (h : GoodReachable c) :
    acceptedInBlocks c := by
  induction h with
  | init g =>
    intro r hr
    simp only [initBlockCache, List.mem_singleton] at hr
    have hr2 : r = hash_tree_root g := Option.some_injective _ hr
    subst hr2
    simp [initBlockCache, lookupAL]
  | add c b rootArg _ ih =>
    intro r hr
    rcases add_block_components c b rootArg with ⟨hb, hacc⟩
    rw [hb, lookupAL_insertAL]
    by_cases he : rootArg.getD (hash_tree_root b.message) = r
    · simp [he]
    · simp only [if_neg he]
      exact ih r (hacc r hr)
  | accept c bs _ hg ih =>
    exact accept_preserves_invariant bs c ih hg

/-- Witness for C8 (amended): the freshly constructed cache, where the
genesis root is accepted and present in blocks. -/
theorem C8_witness :
    (lookupAL (initBlockCache genesisB).blocks (hash_tree_root genesisB)).isSome
      = true :=
  C8_accepted_in_blocks (initBlockCache genesisB) (GoodReachable.init genesisB)
    (hash_tree_root genesisB) (by decide)

/-- One unfolding of the walk at cycBlockA in the cyclic cache: it
recurses into cycBlockB. -/
theorem cyc_stepA (n : Nat) :
    chainWalk (n + 1) cycCache cycBlockA 1000 emptyStore
      = match chainWalk n cycCache cycBlockB 2000 emptyStore with
        | none => none
        | some (Except.error e) => some (Except.error e)
        | some (Except.ok chain) => some (Except.ok (chain ++ [cycBlockA])) := by
  show (if containsKeyAL emptyStore.blocks 1000 = true then some (Except.ok [])
    else if cycBlockA.message.slot = 0 then some (Except.ok [])
    else match lookupAL cycCache.blocks cycBlockA.message.parent_root with
      | none => some (Except.error parentUnknownMsg)
      | some parent =>
        match chainWalk n cycCache parent cycBlockA.message.parent_root emptyStore with
        | none => none
        | some (Except.error e) => some (Except.error e)
        | some (Except.ok chain) => some (Except.ok (chain ++ [cycBlockA]))) = _
  rw [if_neg (by decide), if_neg (by decide)]
  rw [show lookupAL cycCache.blocks cycBlockA.message.parent_root
      = some cycBlockB from by decide]
  rfl

/-- One unfolding of the walk at cycBlockB in the cyclic cache: it
recurses back into cycBlockA. -/
theorem cyc_stepB (n : Nat) :
    chainWalk (n + 1) cycCache cycBlockB 2000 emptyStore
      = match chainWalk n cycCache cycBlockA 1000 emptyStore with
        | none => none
        | some (Except.error e) => some (Except.error e)
        | some (Except.ok chain) => some (Except.ok (chain ++ [cycBlockB])) := by
  show (if containsKeyAL emptyStore.blocks 2000 = true then some (Except.ok [])
    else if cycBlockB.message.slot = 0 then some (Except.ok [])
    else match lookupAL cycCache.blocks cycBlockB.message.parent_root with
      | none => some (Except.error parentUnknownMsg)
      | some parent =>
        match chainWalk n cycCache parent cycBlockB.message.parent_root emptyStore with
        | none => none
        | some (Except.error e) => some (Except.error e)
        | some (Except.ok chain) => some (Except.ok (chain ++ [cycBlockB]))) = _
  rw [if_neg (by decide), if_neg (by decide)]
  rw [show lookupAL cycCache.blocks cycBlockB.message.parent_root
      = some cycBlockA from by decide]
  rfl

/-- The walk in the cyclic cache exhausts any amount of fuel. -/
theorem cyc_walk_none : ∀ n : Nat,
    chainWalk n cycCache cycBlockA 1000 emptyStore = none
      ∧ chainWalk n cycCache cycBlockB 2000 emptyStore = none := by
  intro n
  induction n with
  | zero => exact ⟨rfl, rfl⟩
  | succ n ih =>
    constructor
    · rw [cyc_stepA n, ih.2]
    · rw [cyc_stepB n, ih.1]

/-- C9 (counterexample): the recursive ancestor walk does not terminate on
every reachable state: the cyclic cache, built by two add_block calls with
explicit roots 1000 and 2000 whose blocks reference each other as parents,
makes the walk starting at cycBlockA recurse forever (no fuel suffices),
reaching none of the three claimed outcomes. -/
theorem C9_counterexample :
    Reachable cycCache
      ∧ (walkTerminates cycCache cycBlockA 1000 emptyStore ↔ False) := by
  constructor
  · exact Reachable.add _ _ _ (Reachable.add _ _ _ (Reachable.init genesisB))
  · constructor
    · rintro ⟨n, hn⟩
      exact hn (cyc_walk_none n).1
    · exact False.elim

/-- A successful association-list lookup exhibits a list member. -/
theorem lookupAL_mem {α : Type} (m : List (Nat × α)) (k : Nat) (v : α)
    (h : lookupAL m k = some v) : (k, v) ∈ m := by
  induction m with
  | nil => exact absurd h (by simp [lookupAL])
  | cons hd tl ih =>
    obtain ⟨k2, v2⟩ := hd
    by_cases he : k2 = k
    · subst he
      simp only [lookupAL, if_pos rfl] at h
      simp [Option.some_injective _ h]
    · simp only [lookupAL, if_neg he] at h
      simp [ih h]

/-- Fuel at least the slot of a stored block makes the walk finish when
stored parents strictly decrease the slot. -/
theorem walk_term_stored (c : BlockCache) (store : Store)
    (hdec : parentSlotsDecrease c = true) :
    ∀ (fuel : Nat) (b : SignedBeaconBlock) (r : Nat),
      lookupAL c.blocks r = some b → b.message.slot < fuel →
      chainWalk fuel c b r store ≠ none := by
  intro fuel
  induction fuel with
  | zero => intro b r _ hs; omega
  | succ n ih =>
    intro b r hb hs
    unfold chainWalk
    by_cases h1 : containsKeyAL store.blocks r = true
    · rw [if_pos h1]; simp
    · rw [if_neg h1]
      by_cases h2 : b.message.slot = 0
      · rw [if_pos h2]; simp
      · rw [if_neg h2]
        cases hp : lookupAL c.blocks b.message.parent_root with
        | none => simp
        | some p =>
          have hmem := lookupAL_mem c.blocks r b hb
          have hall := List.all_eq_true.mp hdec (r, b) hmem
          simp only [hp] at hall
          have hps : p.message.slot < b.message.slot := by
            rcases Bool.or_eq_true_iff.mp hall with h3 | h3
            · exact absurd (show b.message.slot = 0 by simpa using h3) h2
            · exact of_decide_eq_true h3
          have hrec := ih p b.message.parent_root hp (by omega)
          cases hw : chainWalk n c p b.message.parent_root store with
          | none => exact absurd hw hrec
          | some res => cases res <;> simp [hw]

/-- C9 (amended): the recursive ancestor walk terminates on every state
whose stored parent references strictly decrease the slot (as hash-keyed
chains do) with fuel exceeding every stored slot: it reaches a store-known
root, slot 0, or the missing-ancestor error.  On reachable states with a
parent cycle, made possible by add_block's explicit root argument, the
walk does not terminate. -/
theorem C9_walk_terminates (c : BlockCache) (b : SignedBeaconBlock)
    (root : Nat) (store : Store) (fuel : Nat)
    (hdec : parentSlotsDecrease c = true)
    (hbound : slotsBelow c fuel = true) :
    chainWalk (fuel + 1) c b root store ≠ none := by
  unfold chainWalk
  by_cases h1 : containsKeyAL store.blocks root = true
  · rw [if_pos h1]; simp
  · rw [if_neg h1]
    by_cases h2 : b.message.slot = 0
    · rw [if_pos h2]; simp
    · rw [if_neg h2]
      cases hp : lookupAL c.blocks b.message.parent_root with
      | none => simp
      | some p =>
        have hmem := lookupAL_mem c.blocks b.message.parent_root p hp
        have hps := of_decide_eq_true (List.all_eq_true.mp hbound
          (b.message.parent_root, p) hmem)
        have hrec := walk_term_stored c store hdec fuel p b.message.parent_root
          hp hps
        cases hw : chainWalk fuel c p b.message.parent_root store with
        | none => exact absurd hw hrec
        | some res => cases res <;> simp [hw]

/-- Witness for C9 (amended): on the freshly constructed cache the walk
finishes within fuel 2 from any block. -/
theorem C9_witness :
    (chainWalk 2 (initBlockCache genesisB) blockA1 77 emptyStore).isSome
      = true :=
  Option.ne_none_iff_isSome.mp
    (C9_walk_terminates (initBlockCache genesisB) blockA1 77 emptyStore 1
      (by decide) (by decide))

/-- Invariant of the longest-chain loop: when every root of the remaining
list resolves to a block whose walk finishes, the loop succeeds with a
result at least as long as the accumulator and as every successful chain
of the list, and the result is the accumulator or one of those chains. -/
theorem longestGo_spec (fuel : Nat) (c : BlockCache) (store : Store) :
    ∀ (rs : List Nat) (chain : List SignedBeaconBlock),
      (∀ r ∈ rs, ∃ b, lookupAL c.blocks r = some b ∧
        chain_for_block fuel c b store ≠ none) →
      ∃ res, longestGo fuel c store rs chain = some res
        ∧ chain.length ≤ res.length
        ∧ (∀ (r : Nat) (b : SignedBeaconBlock) (l : List SignedBeaconBlock),
            r ∈ rs → lookupAL c.blocks r = some b →
            chain_for_block fuel c b store = some (Except.ok l) →
            l.length ≤ res.length)
        ∧ (res = chain ∨ ∃ r b, r ∈ rs ∧ lookupAL c.blocks r = some b ∧
            chain_for_block fuel c b store = some (Except.ok res)) := by
  intro rs
  induction rs with
  | nil =>
    intro chain _
    exact ⟨chain, rfl, le_refl _,
      fun r b l hr => absurd hr (List.not_mem_nil r), Or.inl rfl⟩
  | cons r rest ih =>
    intro chain hall
    obtain ⟨b, hb, hterm⟩ := hall r (by simp)
    cases hcf : chain_for_block fuel c b store with
    | none => exact absurd hcf hterm
    | some res0 =>
      have step : longestGo fuel c store (r :: rest) chain
          = longestGo fuel c store rest
              (if chain.length ≤ (exceptChain res0).length then exceptChain res0
               else chain) := by
        conv_lhs => rw [longestGo]
        rw [hb]
        dsimp only
        rw [hcf]
      obtain ⟨res, hres, hlen, hmax, hmem⟩ :=
        ih (if chain.length ≤ (exceptChain res0).length then exceptChain res0
            else chain)
          (fun r2 hr2 => hall r2 (by simp [hr2]))
      have hacc : chain.length ≤
          (if chain.length ≤ (exceptChain res0).length then exceptChain res0
           else chain).length := by
        by_cases hc : chain.length ≤ (exceptChain res0).length
        · rw [if_pos hc]; exact hc
        · rw [if_neg hc]
      have hoch : (exceptChain res0).length ≤
          (if chain.length ≤ (exceptChain res0).length then exceptChain res0
           else chain).length := by
        by_cases hc : chain.length ≤ (exceptChain res0).length
        · rw [if_pos hc]
        · rw [if_neg hc]; omega
      refine ⟨res, by rw [step]; exact hres, le_trans hacc hlen, ?_, ?_⟩
      · intro r2 b2 l hr2 hb2 hcf2
        rcases List.mem_cons.mp hr2 with he | hrest
        · subst he
          have hbb : b2 = b := Option.some_injective _ (hb2.symm.trans hb)
          subst hbb
          have : res0 = Except.ok l := Option.some_injective _ (hcf.symm.trans hcf2)
          subst this
          exact le_trans hoch hlen
        · exact hmax r2 b2 l hrest hb2 hcf2
      · rcases hmem with he | ⟨r2, b2, hr2, hb2, hcf2⟩
        · by_cases hc : chain.length ≤ (exceptChain res0).length
          · rw [if_pos hc] at he
            cases res0 with
            | ok l =>
              exact Or.inr ⟨r, b, by simp, hb,
                by rw [he]; simpa [exceptChain] using hcf⟩
            | error e =>
              left
              have hlen0 : chain.length = 0 := by simpa [exceptChain] using hc
              have hchain : chain = [] := List.length_eq_zero.mp hlen0
              rw [he, hchain]
              simp [exceptChain]
          · rw [if_neg hc] at he
            exact Or.inl he
        · exact Or.inr ⟨r2, b2, by simp [hr2], hb2, hcf2⟩

/-- C6: longest_outstanding_chain never propagates a missing-ancestor
failure: given that every outstanding root resolves in blocks and its walk
finishes within the given fuel (walks that finish with the missing-
ancestor error allowed and counted as empty chains), the call succeeds and
returns a chain of maximal length among the outstanding roots, the empty
chain when outstanding is empty or every walk fails. -/
theorem C6_longest_outstanding (fuel : Nat) (c : BlockCache) (store : Store)
    (h : ∀ r ∈ c.outstanding, ∃ b, lookupAL c.blocks r = some b ∧
      chain_for_block fuel c b store ≠ none) :
    ∃ res, longest_outstanding_chain fuel c store = some res
      ∧ (∀ (r : Nat) (b : SignedBeaconBlock) (l : List SignedBeaconBlock),
          r ∈ c.outstanding → lookupAL c.blocks r = some b →
          chain_for_block fuel c b store = some (Except.ok l) →
          l.length ≤ res.length)
      ∧ (res = [] ∨ ∃ r b, r ∈ c.outstanding ∧ lookupAL c.blocks r = some b ∧
          chain_for_block fuel c b store = some (Except.ok res)) := by
  obtain ⟨res, h1, _, h3, h4⟩ := longestGo_spec fuel c store c.outstanding [] h
  exact ⟨res, h1, h3, h4⟩

/-- Witness for C6: the orphan cache, whose only outstanding block has a
missing parent, yields a successful empty selection instead of
propagating the KeyError. -/
theorem C6_witness :
    ∃ res, longest_outstanding_chain 3 orphanCache emptyStore = some res
      ∧ (∀ (r : Nat) (b : SignedBeaconBlock) (l : List SignedBeaconBlock),
          r ∈ orphanCache.outstanding → lookupAL orphanCache.blocks r = some b →
          chain_for_block 3 orphanCache b emptyStore = some (Except.ok l) →
          l.length ≤ res.length)
      ∧ (res = [] ∨ ∃ r b, r ∈ orphanCache.outstanding ∧
          lookupAL orphanCache.blocks r = some b ∧
          chain_for_block 3 orphanCache b emptyStore = some (Except.ok res)) :=
  C6_longest_outstanding 3 orphanCache emptyStore (by
    intro r hr
    rw [show orphanCache.outstanding = [hash_tree_root orphanBlock.message]
      from by decide] at hr
    have hr2 := List.mem_singleton.mp hr
    subst hr2
    refine ⟨orphanBlock, by decide, ?_⟩
    rw [show chain_for_block 3 orphanCache orphanBlock emptyStore
      = some (Except.error parentUnknownMsg) from rfl]
    simp)

/-- The last element read through getD is the getLast?. -/
theorem getD_of_getLast? {α : Type} (l : List α) (x d : α)
    (h : l.getLast? = some x) : l.getD (l.length - 1) d = x := by
  rw [List.getD_eq_getElem?_getD, ← List.getLast?_eq_getElem?, h]
  rfl

/-- Shape of every successful chain the walk returns: the chain ends with
the starting block, whose root the store does not know, and each element
is the stored parent of the next, reached through a parent root the store
does not know: the ancestors come oldest to newest and store-known blocks
are excluded. -/
theorem chainWalk_shape :
    ∀ (fuel : Nat) (c : BlockCache) (b : SignedBeaconBlock) (root : Nat)
      (store : Store) (l : List SignedBeaconBlock),
      chainWalk fuel c b root store = some (Except.ok l) →
      (l ≠ [] → l.getLast? = some b ∧ containsKeyAL store.blocks root = false)
        ∧ (∀ i : Nat, i + 1 < l.length →
            lookupAL c.blocks ((l.getD (i+1) dummySB).message.parent_root)
                = some (l.getD i dummySB)
              ∧ containsKeyAL store.blocks
                  ((l.getD (i+1) dummySB).message.parent_root) = false) := by
  intro fuel
  induction fuel with
  | zero =>
    intro c b root store l h
    exact absurd h (by simp [chainWalk])
  | succ n ih =>
    intro c b root store l h
    unfold chainWalk at h
    by_cases h1 : containsKeyAL store.blocks root = true
    · rw [if_pos h1] at h
      simp only [Option.some.injEq, Except.ok.injEq] at h
      subst h
      exact ⟨fun hne => absurd rfl hne, fun i hi => absurd hi (by simp)⟩
    · rw [if_neg h1] at h
      by_cases h2 : b.message.slot = 0
      · rw [if_pos h2] at h
        simp only [Option.some.injEq, Except.ok.injEq] at h
        subst h
        exact ⟨fun hne => absurd rfl hne, fun i hi => absurd hi (by simp)⟩
      · rw [if_neg h2] at h
        cases hp : lookupAL c.blocks b.message.parent_root with
        | none => rw [hp] at h; simp at h
        | some p =>
          rw [hp] at h
          dsimp only at h
          cases hw : chainWalk n c p b.message.parent_root store with
          | none => rw [hw] at h; simp at h
          | some res =>
            rw [hw] at h
            cases res with
            | error e => simp at h
            | ok chain =>
              simp only [Option.some.injEq, Except.ok.injEq] at h
              subst h
              have IH := ih c p b.message.parent_root store chain hw
              constructor
              · intro _
                exact ⟨List.getLast?_concat chain, Bool.eq_false_iff.mpr h1⟩
              · intro i hi
                rw [List.length_append, List.length_singleton] at hi
                by_cases hlt : i + 1 < chain.length
                · rw [List.getD_append chain [b] dummySB (i+1) hlt,
                    List.getD_append chain [b] dummySB i (by omega)]
                  exact IH.2 i hlt
                · have heq : i + 1 = chain.length := by omega
                  have hne : chain ≠ [] := by
                    intro hc
                    rw [hc] at heq
                    simp at heq
                  obtain ⟨hlast, hpar⟩ := IH.1 hne
                  rw [List.getD_append_right chain [b] dummySB (i+1) (by omega),
                    List.getD_append chain [b] dummySB i (by omega)]
                  rw [heq, Nat.sub_self]
                  have hgd : chain.getD i dummySB = p := by
                    have : i = chain.length - 1 := by omega
                    rw [this]
                    exact getD_of_getLast? chain p dummySB hlast
                  rw [hgd]
                  exact ⟨by simpa using hp, by simpa using hpar⟩

/-- C4: on the chain genesis to blockA1 to blockB2 to blockC3, with the
external store knowing only genesis, chain_for_block on blockC3 returns
exactly the three non-genesis blocks oldest to newest; and in general any
chain the walk returns lists ancestors oldest to newest (each element the
stored parent of the next), excludes every block reached through a
store-known root, and stops with the empty chain at slot 0. -/
theorem C4_chain_reconstruction :
    (chain_for_block 10 chainCache blockC3 genesisStore
        = some (Except.ok [blockA1, blockB2, blockC3]))
      ∧ (∀ (fuel : Nat) (c : BlockCache) (b : SignedBeaconBlock) (root : Nat)
          (store : Store) (l : List SignedBeaconBlock),
          chainWalk fuel c b root store = some (Except.ok l) →
          (l ≠ [] → l.getLast? = some b
            ∧ containsKeyAL store.blocks root = false)
          ∧ (∀ i : Nat, i + 1 < l.length →
              lookupAL c.blocks ((l.getD (i+1) dummySB).message.parent_root)
                  = some (l.getD i dummySB)
                ∧ containsKeyAL store.blocks
                    ((l.getD (i+1) dummySB).message.parent_root) = false))
      ∧ (∀ (fuel : Nat) (c : BlockCache) (b : SignedBeaconBlock) (root : Nat)
          (store : Store), b.message.slot = 0 →
          containsKeyAL store.blocks root = false →
          chainWalk (fuel + 1) c b root store = some (Except.ok [])) := by
  refine ⟨rfl, chainWalk_shape, ?_⟩
  intro fuel c b root store h0 hk
  unfold chainWalk
  rw [if_neg (by simp [hk]), if_pos h0]

/-- Witness for C4: the shape clause applied to the concrete three-block
chain, and the slot 0 clause applied to genesis. -/
theorem C4_witness :
    ([blockA1, blockB2, blockC3].getLast? = some blockC3
      ∧ containsKeyAL genesisStore.blocks (hash_tree_root blockC3.message)
          = false)
      ∧ chainWalk 1 chainCache ⟨genesisB⟩ (hash_tree_root genesisB) emptyStore
          = some (Except.ok []) :=
  ⟨(C4_chain_reconstruction.2.1 10 chainCache blockC3
      (hash_tree_root blockC3.message) genesisStore [blockA1, blockB2, blockC3]
      C4_chain_reconstruction.1).1 (by simp),
   C4_chain_reconstruction.2.2 0 chainCache ⟨genesisB⟩ (hash_tree_root genesisB)
      emptyStore rfl rfl⟩
